import Mathlib

/-!
Verification of the synthetic-photometry core of the HSC-BD notebook
(`notebooks/BD magnitudes.ipynb`): the loaders `load_model` and
`load_filter` and the integrator `get_abs_mag`.

The embedding works over exact rationals.  A model-spectrum file is a list
of rows `(wavelength in micron, flux density in milli-jansky)`; a filter
file is a list of rows `(wavelength in angstrom, dimensionless response)`.
Library routines used by the notebook are embedded from their sources:
`np.interp` (one-dimensional linear interpolation with edge clamping on an
ascending abscissa grid), `np.argsort`, and `scipy.integrate.simps`
(composite Simpson quadrature on a possibly non-uniform grid, with the
trapezoidal/average correction for an even number of samples).  The final
magnitude, `-2.5 * log10(ratio)`, lives in `ℝ`; everything below it is
computable `ℚ` arithmetic.
-/

namespace HSCBD

/-- Speed of light in angstrom per second; astropy's constant `c` is exactly
299792458 m/s and one metre is 10^10 angstrom. -/
def cAng : ℚ := 299792458 * 10 ^ 10

/-- The notebook's `load_model`: read rows of `(LAMBDA(mic), FDET(milliJ))`,
convert the wavelength to angstrom (`* 10^4`), derive the frequency in Hz
(`cAng / wavelength`), and convert the flux density from milli-jansky to
erg/s/cm^2/Hz (`/ 10^26`).  With the `lambda_` flag the wavelength grid is
returned together with the flux density converted to per-unit-wavelength
units via the spectral-density Jacobian `cAng / wavelength^2`. -/
def load_model (rows : List (ℚ × ℚ)) (lambda_ : Bool) : List ℚ × List ℚ :=
  let model_wvln := rows.map (fun r => r.1 * 10 ^ 4)
  let model_nu := model_wvln.map (fun l => cAng / l)
  let model_fnu := rows.map (fun r => r.2 / 10 ^ 26)
  if lambda_ then
    (model_wvln, (model_fnu.zip model_wvln).map (fun p => p.1 * cAng / p.2 ^ 2))
  else
    (model_nu, model_fnu)

/-- The notebook's `load_filter`: read two-column rows
`(wavelength in angstrom, response)`; the response column is passed through
unchanged, and the independent variable is either the tabulated wavelength
(`lambda_` set) or the frequency `cAng / wavelength` (flag unset). -/
def load_filter (rows : List (ℚ × ℚ)) (lambda_ : Bool) : List ℚ × List ℚ :=
  let filter_wvln := rows.map (fun r => r.1)
  let filter_nu := filter_wvln.map (fun l => cAng / l)
  let resp := rows.map (fun r => r.2)
  if lambda_ then (filter_wvln, resp) else (filter_nu, resp)

/-- Embedding of `np.interp x xp fp` for an ascending abscissa list `xp`:
piecewise-linear interpolation between the tabulated points, returning the
first ordinate for query points left of the grid and the last ordinate for
query points right of it (edge clamping). -/
def interp1 (x : ℚ) : List ℚ → List ℚ → ℚ
  | [_], [y0] => y0
  | x0 :: x1 :: xs, y0 :: y1 :: ys =>
    if x ≤ x0 then y0
    else if x ≤ x1 then y0 + (y1 - y0) * (x - x0) / (x1 - x0)
    else interp1 x (x1 :: xs) (y1 :: ys)
  | _, _ => 0

/-- Embedding of `np.argsort keys`: a permutation of `[0, …, n-1]` listing the
indices in order of ascending key (a comparison sort; numpy's default
quicksort is likewise deterministic but unstable, so on tied keys only the
multiset of indices per key is specified). -/
def argsort (keys : List ℚ) : List ℕ :=
  List.insertionSort (fun i j => keys.getD i 0 ≤ keys.getD j 0) (List.range keys.length)

/-- Fancy indexing `v[idx]` of numpy: select the entries of `v` at the listed
indices. -/
def takeIdx (idx : List ℕ) (v : List ℚ) : List ℚ :=
  idx.map (fun i => v.getD i 0)

/-- Contribution of one pair of adjacent intervals to scipy's `_basic_simps`:
the exact integral over `[x0, x2]` of the parabola through the three samples,
written with interval widths `h0 = x1 - x0` and `h1 = x2 - x1` as in the
scipy source. -/
def simpsPair (x0 x1 x2 y0 y1 y2 : ℚ) : ℚ :=
  let h0 := x1 - x0
  let h1 := x2 - x1
  (h0 + h1) / 6 *
    (y0 * (2 - h1 / h0) + y1 * ((h0 + h1) ^ 2 / (h0 * h1)) + y2 * (2 - h0 / h1))

/-- Scipy's `_basic_simps` over a whole sample list: sum the two-interval
Simpson contributions over consecutive interval pairs.  On a list with an
even number of intervals this is the composite Simpson rule. -/
def basicSimps : List ℚ → List ℚ → ℚ
  | x0 :: x1 :: x2 :: xs, y0 :: y1 :: y2 :: ys =>
    simpsPair x0 x1 x2 y0 y1 y2 + basicSimps (x2 :: xs) (y2 :: ys)
  | _, _ => 0

/-- Trapezoid on the first interval of the grid, `0.5*(x1-x0)*(y0+y1)`. -/
def trapzFirst : List ℚ → List ℚ → ℚ
  | x0 :: x1 :: _, y0 :: y1 :: _ => (x1 - x0) * (y1 + y0) / 2
  | _, _ => 0

/-- Trapezoid on the last interval of the grid. -/
def trapzLast (x y : List ℚ) : ℚ :=
  match x.reverse, y.reverse with
  | xl :: xl1 :: _, yl :: yl1 :: _ => (xl - xl1) * (yl + yl1) / 2
  | _, _ => 0

/-- Embedding of `scipy.integrate.simps y x` (argument order as in scipy:
ordinates first).  For an odd number of samples this is `_basic_simps` on the
whole grid; for an even number the default `even='avg'` policy averages
Simpson-on-all-but-the-last-interval plus a trapezoid on the last with
Simpson-on-all-but-the-first plus a trapezoid on the first. -/
def simps (y x : List ℚ) : ℚ :=
  if y.length % 2 = 1 then basicSimps x y
  else
    ((basicSimps x.dropLast y.dropLast + trapzLast x y) +
      (basicSimps x.tail y.tail + trapzFirst x y)) / 2

/-- Filter response resampled onto the model frequency grid:
`np.interp(model_nu.value, filter_nu.value, filter_resp)` in the notebook. -/
def resampledResp (model filt : List (ℚ × ℚ)) : List ℚ :=
  ((load_model model false).1).map
    (fun x => interp1 x (load_filter filt false).1 (load_filter filt false).2)

/-- Model frequency grid rearranged by `np.argsort(model_nu)`, i.e. into
ascending order: `model_nu[np.argsort(model_nu)]`. -/
def sortedNu (model : List (ℚ × ℚ)) : List ℚ :=
  takeIdx (argsort (load_model model false).1) (load_model model false).1

/-- The product `model_fnu * filter_resp_model` rearranged by the same
argsort permutation. -/
def sortedProd (model filt : List (ℚ × ℚ)) : List ℚ :=
  takeIdx (argsort (load_model model false).1)
    (List.zipWith (fun a b => a * b) (load_model model false).2 (resampledResp model filt))

/-- The resampled filter response rearranged by the same argsort
permutation. -/
def sortedResp (model filt : List (ℚ × ℚ)) : List ℚ :=
  takeIdx (argsort (load_model model false).1) (resampledResp model filt)

/-- The numerator integral `fnu1` of `get_abs_mag`, in erg/s/cm^2 units. -/
def fnu1 (model filt : List (ℚ × ℚ)) : ℚ :=
  simps (sortedProd model filt) (sortedNu model)

/-- The denominator integral `fnu2` of `get_abs_mag`: the response integral
times the AB zero-point flux density of 3631 jansky, which is
`3631 / 10^23` erg/s/cm^2/Hz. -/
def fnu2 (model filt : List (ℚ × ℚ)) : ℚ :=
  simps (sortedResp model filt) (sortedNu model) * (3631 / 10 ^ 23)

/-- The dimensionless flux ratio `fnu1 / fnu2` whose logarithm is the
magnitude. -/
def abRatio (model filt : List (ℚ × ℚ)) : ℚ :=
  fnu1 model filt / fnu2 model filt

/-- The notebook's `get_abs_mag`: `-2.5 * np.log10(fnu1 / fnu2)`. -/
noncomputable def get_abs_mag (model filt : List (ℚ × ℚ)) : ℝ :=
  -2.5 * Real.logb 10 ((abRatio model filt : ℚ) : ℝ)

/-- Composite Simpson's-rule quadrature over an ascending grid, written
independently of the scipy embedding as a closed-form sum over consecutive
interval pairs: on points `x_{2k} < x_{2k+1} < x_{2k+2}` the parabola through
the three samples integrates to the classical nonuniform Simpson term.  This
is the formulation used by the specification's description of the
integrator. -/
def compSimpson (x y : List ℚ) : ℚ :=
  ∑ k ∈ Finset.range (x.length / 2),
    (x.getD (2 * k + 2) 0 - x.getD (2 * k) 0) / 6 *
      (y.getD (2 * k) 0 *
          (2 - (x.getD (2 * k + 2) 0 - x.getD (2 * k + 1) 0) /
            (x.getD (2 * k + 1) 0 - x.getD (2 * k) 0)) +
        y.getD (2 * k + 1) 0 *
          ((x.getD (2 * k + 2) 0 - x.getD (2 * k) 0) ^ 2 /
            ((x.getD (2 * k + 1) 0 - x.getD (2 * k) 0) *
              (x.getD (2 * k + 2) 0 - x.getD (2 * k + 1) 0))) +
        y.getD (2 * k + 2) 0 *
          (2 - (x.getD (2 * k + 1) 0 - x.getD (2 * k) 0) /
            (x.getD (2 * k + 2) 0 - x.getD (2 * k + 1) 0)))

/-- Flux-weighted quadrature mean of the model flux density over the
integration interval: the quadrature integral of the sorted flux-density
samples divided by the quadrature integral of the constant function one over
the same sorted frequency grid.  This is the specification's "mean flux
density over the band". -/
def quadMeanFlux (model : List (ℚ × ℚ)) : ℚ :=
  simps (takeIdx (argsort (load_model model false).1) (load_model model false).2)
      (sortedNu model) /
    simps ((sortedNu model).map (fun _ => (1 : ℚ))) (sortedNu model)

/-! ### Error propagation model

The notebook contains no `try`/`except`: `ascii.read` raises on malformed or
column-deficient input and the exception aborts the whole magnitude
computation.  The loaders are modelled on already-lexed file contents: a model
file is a named-column table (`ascii.read` + column lookup fails with a parse
error when `LAMBDA(mic)` or `FDET(milliJ)` is absent), a filter file is a list
of numeric rows (`ascii.read` with two fixed column names fails unless every
row has exactly two fields), and a missing file is `Option.none`. -/

/-- Column lookup in a parsed ASCII table; raises (returns `.error`) when the
named column is missing, as `astropy.io.ascii` table access does. -/
def asciiReadCol (tbl : List (String × List ℚ)) (colname : String) :
    Except String (List ℚ) :=
  match tbl.find? (fun col => col.1 == colname) with
  | some col => .ok col.2
  | none => .error ("ParseError: missing column " ++ colname)

/-- The model loader on raw input: `FileNotFoundError` for a missing file, a
parse error when either expected column is absent, otherwise the row list. -/
def load_modelE (file : Option (List (String × List ℚ))) :
    Except String (List (ℚ × ℚ)) :=
  match file with
  | none => .error "FileNotFoundError"
  | some tbl => do
    let lam ← asciiReadCol tbl "LAMBDA(mic)"
    let fdet ← asciiReadCol tbl "FDET(milliJ)"
    pure (lam.zip fdet)

/-- Row-shape validation of `ascii.read(filter_file, names=[2 names])`: every
row must have exactly two fields. -/
def parseFilterRows : List (List ℚ) → Except String (List (ℚ × ℚ))
  | [] => .ok []
  | [a, b] :: rest => (parseFilterRows rest).map (fun r => (a, b) :: r)
  | _ :: _ => .error "ParseError: row does not have exactly two columns"

/-- The filter loader on raw input. -/
def load_filterE (file : Option (List (List ℚ))) : Except String (List (ℚ × ℚ)) :=
  match file with
  | none => .error "FileNotFoundError"
  | some rows => parseFilterRows rows

/-- The full magnitude computation on raw inputs: load both files and compute
the magnitude, with any loader error propagating monadically (the notebook
catches nothing). -/
noncomputable def get_abs_magE (modelFile : Option (List (String × List ℚ)))
    (filterFile : Option (List (List ℚ))) : Except String ℝ := do
  let model ← load_modelE modelFile
  let filt ← load_filterE filterFile
  pure (get_abs_mag model filt)

/-! ## Claim C10: the filter loader passes the response column through -/

/-- C10: `load_filter` returns the tabulated response values unchanged in both
axis modes — the second returned array equals the file's second column with no
renormalization — while the axis flag changes only the independent variable
(the tabulated wavelength when set, the converted frequency `cAng / wavelength`
when unset). -/
theorem load_filter_response_unchanged (filt : List (ℚ × ℚ)) :
    (load_filter filt true).2 = filt.map (fun p => p.2) ∧
    (load_filter filt false).2 = filt.map (fun p => p.2) ∧
    (load_filter filt true).1 = filt.map (fun p => p.1) ∧
    (load_filter filt false).1 = filt.map (fun p => cAng / p.1) := by
  refine ⟨rfl, rfl, rfl, ?_⟩
  simp [load_filter]

/-! ## Claim C7: the model loader's two representations -/

/-- C7: with the wavelength flag unset `load_model` returns the frequency grid
`cAng / (wavelength·10^4)` and the flux density in per-frequency units
(milli-jansky divided by `10^26`); with the flag set it returns the wavelength
grid in angstrom, and at every sample index the per-wavelength flux density is
the per-frequency one multiplied by the sample-dependent factor
`cAng / wavelength^2` evaluated at that sample's wavelength, not a global
constant. -/
theorem load_model_lambda_mode (model : List (ℚ × ℚ)) :
    (load_model model false).1 = model.map (fun r => cAng / (r.1 * 10 ^ 4)) ∧
    (load_model model false).2 = model.map (fun r => r.2 / 10 ^ 26) ∧
    (load_model model true).1 = model.map (fun r => r.1 * 10 ^ 4) ∧
    ∀ i, i < model.length →
      (load_model model true).2.getD i 0 =
        (load_model model false).2.getD i 0 *
          (cAng / ((load_model model true).1.getD i 0) ^ 2) := by
  refine ⟨by simp [load_model], rfl, rfl, ?_⟩
  intro i hi
  have h1 : ((load_model model true).2).getD i 0 =
      model[i].2 / 10 ^ 26 * cAng / (model[i].1 * 10 ^ 4) ^ 2 := by
    rw [List.getD_eq_getElem _ _ (by simpa [load_model] using hi)]
    simp [load_model, List.getElem_zip]
  have h2 : ((load_model model false).2).getD i 0 = model[i].2 / 10 ^ 26 := by
    rw [List.getD_eq_getElem _ _ (by simpa [load_model] using hi)]
    simp [load_model]
  have h3 : ((load_model model true).1).getD i 0 = model[i].1 * 10 ^ 4 := by
    rw [List.getD_eq_getElem _ _ (by simpa [load_model] using hi)]
    simp [load_model]
  rw [h1, h2, h3, mul_div_assoc]

/-- Witness for C7 at the one-row model `[(2, 5)]`, sample index 0. -/
theorem load_model_lambda_mode_witness :
    (load_model [(2, 5)] true).2.getD 0 0 =
      (load_model [(2, 5)] false).2.getD 0 0 *
        (cAng / ((load_model [(2, 5)] true).1.getD 0 0) ^ 2) :=
  (load_model_lambda_mode [(2, 5)]).2.2.2 0 (by norm_num)

/-! ## Claim C8: wavelength–frequency round trip -/

/-- C8: for positive tabulated wavelengths, converting the frequency grid that
`load_model` derives back to wavelength via the inverse relation
`wavelength = cAng / frequency` reproduces the wavelength grid exactly. -/
theorem freq_wavelength_roundtrip (model : List (ℚ × ℚ))
    (h : ∀ p ∈ model, 0 < p.1) :
    ((load_model model false).1).map (fun nu => cAng / nu) =
      (load_model model true).1 := by
  have hc : (cAng : ℚ) ≠ 0 := by norm_num [cAng]
  show ((model.map (fun r => r.1 * 10 ^ 4)).map (fun l => cAng / l)).map (fun nu => cAng / nu)
      = model.map (fun r => r.1 * 10 ^ 4)
  rw [List.map_map, List.map_map]
  refine List.map_congr_left ?_
  intro p hp
  have hpos : (p.1 * 10 ^ 4 : ℚ) ≠ 0 := by
    have := h p hp
    positivity
  simp only [Function.comp]
  rw [div_div_eq_mul_div, mul_comm, mul_div_assoc, div_self hc, mul_one]

/-- Witness for C8 at the two-row model `[(1, 7), (2, 5)]`. -/
theorem freq_wavelength_roundtrip_witness :
    ((load_model [(1, 7), (2, 5)] false).1).map (fun nu => cAng / nu) =
      (load_model [(1, 7), (2, 5)] true).1 :=
  freq_wavelength_roundtrip [(1, 7), (2, 5)] (by norm_num)

/-! ## Linearity lemmas for the quadrature pipeline -/

/-- Linear interpolation is homogeneous in the ordinate list. -/
theorem interp1_map_mul (c x : ℚ) :
    ∀ (xp fp : List ℚ), interp1 x xp (fp.map (fun v => c * v)) = c * interp1 x xp fp
  | [x0], [y0] => by simp [interp1]
  | x0 :: x1 :: xs, y0 :: y1 :: ys => by
    have hrec := interp1_map_mul c x (x1 :: xs) (y1 :: ys)
    simp only [List.map_cons] at hrec ⊢
    rw [interp1, interp1]
    split_ifs with h1 h2
    · rfl
    · ring
    · exact hrec
  | [], fp => by cases fp <;> simp [interp1]
  | [x0], [] => by simp [interp1]
  | [x0], y0 :: y1 :: ys => by simp [interp1]
  | x0 :: x1 :: xs, [] => by simp [interp1]
  | x0 :: x1 :: xs, [y0] => by simp [interp1]

/-- The two-interval Simpson term is homogeneous in the ordinates. -/
theorem simpsPair_mul (c x0 x1 x2 y0 y1 y2 : ℚ) :
    simpsPair x0 x1 x2 (c * y0) (c * y1) (c * y2) = c * simpsPair x0 x1 x2 y0 y1 y2 := by
  unfold simpsPair; ring

/-- Scipy's `_basic_simps` is homogeneous in the ordinate list. -/
theorem basicSimps_map_mul (c : ℚ) :
    ∀ (x y : List ℚ), basicSimps x (y.map (fun v => c * v)) = c * basicSimps x y
  | x0 :: x1 :: x2 :: xs, y0 :: y1 :: y2 :: ys => by
    have hrec := basicSimps_map_mul c (x2 :: xs) (y2 :: ys)
    simp only [List.map_cons] at hrec ⊢
    rw [basicSimps, basicSimps, simpsPair_mul, hrec]
    ring
  | [], y => by cases y <;> simp [basicSimps]
  | [x0], y => by
    cases y with
    | nil => simp [basicSimps]
    | cons a t => cases t <;> simp [basicSimps]
  | [x0, x1], y => by
    cases y with
    | nil => simp [basicSimps]
    | cons a t => cases t <;> simp [basicSimps]
  | x0 :: x1 :: x2 :: xs, [] => by simp [basicSimps]
  | x0 :: x1 :: x2 :: xs, [y0] => by simp [basicSimps]
  | x0 :: x1 :: x2 :: xs, [y0, y1] => by simp [basicSimps]

/-- The first-interval trapezoid is homogeneous in the ordinate list. -/
theorem trapzFirst_map_mul (c : ℚ) (x y : List ℚ) :
    trapzFirst x (y.map (fun v => c * v)) = c * trapzFirst x y := by
  match x, y with
  | x0 :: x1 :: _, y0 :: y1 :: _ => simp only [List.map_cons]; rw [trapzFirst, trapzFirst]; ring
  | [], y => cases y <;> simp [trapzFirst]
  | [x0], y => cases y <;> simp [trapzFirst]
  | x0 :: x1 :: _, [] => simp [trapzFirst]
  | x0 :: x1 :: _, [y0] => simp [trapzFirst]

/-- The last-interval trapezoid is homogeneous in the ordinate list. -/
theorem trapzLast_map_mul (c : ℚ) (x y : List ℚ) :
    trapzLast x (y.map (fun v => c * v)) = c * trapzLast x y := by
  rw [trapzLast, trapzLast, ← List.map_reverse]
  match x.reverse, y.reverse with
  | x0 :: x1 :: _, y0 :: y1 :: _ => simp only [List.map_cons]; ring
  | [], v => cases v <;> simp
  | [x0], v => cases v <;> simp
  | x0 :: x1 :: _, [] => simp
  | x0 :: x1 :: _, [y0] => simp

/-- Scipy's `simps` is homogeneous in the ordinate list. -/
theorem simps_map_mul (c : ℚ) (y x : List ℚ) :
    simps (y.map (fun v => c * v)) x = c * simps y x := by
  rw [simps, simps, List.length_map]
  split_ifs with h
  · exact basicSimps_map_mul c x y
  · rw [← List.map_dropLast, ← List.map_tail, basicSimps_map_mul, basicSimps_map_mul,
      trapzFirst_map_mul, trapzLast_map_mul]
    ring

/-- Fancy indexing commutes with an ordinate-wise rescaling. -/
theorem takeIdx_map_mul (c : ℚ) (idx : List ℕ) (v : List ℚ) :
    takeIdx idx (v.map (fun w => c * w)) = (takeIdx idx v).map (fun w => c * w) := by
  unfold takeIdx
  rw [List.map_map]
  refine List.map_congr_left ?_
  intro i _
  simp only [Function.comp, List.getD_eq_getElem?_getD, List.getElem?_map]
  cases h : v[i]? <;> simp

/-- Pointwise products absorb a rescaling of the right factor. -/
theorem zipWith_mul_map_right (c : ℚ) :
    ∀ (a b : List ℚ), List.zipWith (fun u v => u * v) a (b.map (fun w => c * w)) =
      (List.zipWith (fun u v => u * v) a b).map (fun w => c * w)
  | [], _ => by simp
  | _ :: _, [] => by simp
  | u :: a, v :: b => by
    simp only [List.map_cons, List.zipWith_cons_cons]
    rw [zipWith_mul_map_right c a b]
    congr 1
    ring

/-- Pointwise products absorb a rescaling of the left factor. -/
theorem zipWith_mul_map_left (c : ℚ) :
    ∀ (a b : List ℚ), List.zipWith (fun u v => u * v) (a.map (fun w => c * w)) b =
      (List.zipWith (fun u v => u * v) a b).map (fun w => c * w)
  | [], _ => by simp
  | _ :: _, [] => by simp
  | u :: a, v :: b => by
    simp only [List.map_cons, List.zipWith_cons_cons]
    rw [zipWith_mul_map_left c a b]
    congr 1
    ring

/-- Helper: rescaling every response value of a filter file rescales the
loaded response column and leaves the frequency axis unchanged. -/
theorem load_filter_scale (filt : List (ℚ × ℚ)) (c : ℚ) :
    load_filter (filt.map (fun p => (p.1, c * p.2))) false =
      ((load_filter filt false).1, (load_filter filt false).2.map (fun v => c * v)) := by
  simp [load_filter, List.map_map, Function.comp]

/-- Helper: rescaling the filter response rescales the resampled response. -/
theorem resampledResp_scale (model filt : List (ℚ × ℚ)) (c : ℚ) :
    resampledResp model (filt.map (fun p => (p.1, c * p.2))) =
      (resampledResp model filt).map (fun v => c * v) := by
  unfold resampledResp
  rw [load_filter_scale, List.map_map]
  refine List.map_congr_left ?_
  intro x _
  exact interp1_map_mul c x _ _

/-! ## Claim C4: invariance under uniform filter-response rescaling -/

/-- C4: multiplying every filter response value by a positive constant `c`
leaves the magnitude of `get_abs_mag` unchanged — both integrals scale by the
same factor `c`, so the flux ratio and hence the magnitude are invariant. -/
theorem filter_rescaling_invariance (model filt : List (ℚ × ℚ)) (c : ℚ)
    (hc : 0 < c) :
    get_abs_mag model (filt.map (fun p => (p.1, c * p.2))) = get_abs_mag model filt := by
  have hresp : sortedResp model (filt.map (fun p => (p.1, c * p.2))) =
      (sortedResp model filt).map (fun v => c * v) := by
    unfold sortedResp
    rw [resampledResp_scale, takeIdx_map_mul]
  have hprod : sortedProd model (filt.map (fun p => (p.1, c * p.2))) =
      (sortedProd model filt).map (fun v => c * v) := by
    unfold sortedProd
    rw [resampledResp_scale, zipWith_mul_map_right, takeIdx_map_mul]
  have h1 : fnu1 model (filt.map (fun p => (p.1, c * p.2))) = c * fnu1 model filt := by
    unfold fnu1
    rw [hprod, simps_map_mul]
  have h2 : fnu2 model (filt.map (fun p => (p.1, c * p.2))) = c * fnu2 model filt := by
    unfold fnu2
    rw [hresp, simps_map_mul, mul_assoc]
  have hr : abRatio model (filt.map (fun p => (p.1, c * p.2))) = abRatio model filt := by
    unfold abRatio
    rw [h1, h2, mul_div_mul_left _ _ (ne_of_gt hc)]
  unfold get_abs_mag
  rw [hr]

/-- Witness for C4: a concrete three-row model, two-row filter, scale 2. -/
theorem filter_rescaling_invariance_witness :
    get_abs_mag [(1, 1), (2, 3), (4, 2)]
        ([((40000 : ℚ), (1 : ℚ)/4), (5000, 1/2)].map (fun p => (p.1, 2 * p.2))) =
      get_abs_mag [(1, 1), (2, 3), (4, 2)] [(40000, 1/4), (5000, 1/2)] :=
  filter_rescaling_invariance [(1, 1), (2, 3), (4, 2)] [(40000, 1/4), (5000, 1/2)] 2
    (by norm_num)

/-! ## Claim C6: rescaling the model flux shifts the magnitude by a constant -/

/-- C6: multiplying every model flux-density value by a positive constant `c`
changes the magnitude by exactly `-2.5·log10 c`: the frequency grid and the
resampled response, hence the denominator integral, are unchanged, while the
numerator integral scales by `c`. -/
theorem model_flux_rescaling (model filt : List (ℚ × ℚ)) (c : ℚ) (hc : 0 < c)
    (hr : abRatio model filt ≠ 0) :
    get_abs_mag (model.map (fun p => (p.1, c * p.2))) filt =
      get_abs_mag model filt - 2.5 * Real.logb 10 (c : ℝ) := by
  have hnu : (load_model (model.map (fun p => (p.1, c * p.2))) false).1 =
      (load_model model false).1 := by
    simp [load_model, List.map_map, Function.comp]
  have hfnu : (load_model (model.map (fun p => (p.1, c * p.2))) false).2 =
      (load_model model false).2.map (fun v => c * v) := by
    show (model.map (fun p => (p.1, c * p.2))).map (fun r => r.2 / 10 ^ 26) =
      (model.map (fun r => r.2 / 10 ^ 26)).map (fun v => c * v)
    rw [List.map_map, List.map_map]
    refine List.map_congr_left ?_
    intro p _
    simp only [Function.comp]
    ring
  have hresamp : resampledResp (model.map (fun p => (p.1, c * p.2))) filt =
      resampledResp model filt := by
    unfold resampledResp
    rw [hnu]
  have hresp : sortedResp (model.map (fun p => (p.1, c * p.2))) filt =
      sortedResp model filt := by
    unfold sortedResp
    rw [hnu, hresamp]
  have hsnu : sortedNu (model.map (fun p => (p.1, c * p.2))) = sortedNu model := by
    unfold sortedNu
    rw [hnu]
  have hprod : sortedProd (model.map (fun p => (p.1, c * p.2))) filt =
      (sortedProd model filt).map (fun v => c * v) := by
    unfold sortedProd
    rw [hnu, hfnu, hresamp, zipWith_mul_map_left, takeIdx_map_mul]
  have h1 : fnu1 (model.map (fun p => (p.1, c * p.2))) filt = c * fnu1 model filt := by
    unfold fnu1
    rw [hprod, hsnu, simps_map_mul]
  have h2 : fnu2 (model.map (fun p => (p.1, c * p.2))) filt = fnu2 model filt := by
    unfold fnu2
    rw [hresp, hsnu]
  have hratio : abRatio (model.map (fun p => (p.1, c * p.2))) filt =
      c * abRatio model filt := by
    unfold abRatio
    rw [h1, h2, mul_div_assoc]
  unfold get_abs_mag
  rw [hratio]
  push_cast
  rw [Real.logb_mul (by exact_mod_cast ne_of_gt hc) (by exact_mod_cast hr)]
  ring

/-- Witness for C6 at a concrete model, filter and scale 3: the flux ratio of
the unscaled configuration is nonzero and the magnitude shifts by
`-2.5·log10 3`. -/
theorem model_flux_rescaling_witness :
    get_abs_mag ([((1 : ℚ), (1 : ℚ)), (2, 3), (4, 2)].map (fun p => (p.1, 3 * p.2)))
        [(40000, 1/4), (5000, 1/2)] =
      get_abs_mag [(1, 1), (2, 3), (4, 2)] [(40000, 1/4), (5000, 1/2)] -
        2.5 * Real.logb 10 ((3 : ℚ) : ℝ) :=
  model_flux_rescaling [(1, 1), (2, 3), (4, 2)] [(40000, 1/4), (5000, 1/2)] 3
    (by norm_num)
    (by norm_num [abRatio, fnu1, fnu2, sortedProd, sortedResp, sortedNu, simps, basicSimps,
      simpsPair, trapzFirst, trapzLast, takeIdx, argsort, resampledResp, load_model,
      load_filter, interp1, cAng, List.insertionSort, List.orderedInsert,
      List.range.loop, List.getD, List.range])

/-- Helper: interpolating a constant ordinate list yields that constant at
every query point (including the clamped regions). -/
theorem interp1_const (x r0 : ℚ) :
    ∀ (xp fp : List ℚ), xp ≠ [] → xp.length = fp.length → (∀ v ∈ fp, v = r0) →
      interp1 x xp fp = r0
  | [x0], [y0], _, _, hv => by simp [interp1, hv y0 (by simp)]
  | x0 :: x1 :: xs, y0 :: y1 :: ys, _, hlen, hv => by
    have h0 : y0 = r0 := hv y0 (by simp)
    have h1 : y1 = r0 := hv y1 (by simp)
    have hrec := interp1_const x r0 (x1 :: xs) (y1 :: ys) (by simp)
      (by simpa using hlen)
      (fun v hvm => hv v (List.mem_cons_of_mem y0 hvm))
    rw [interp1]
    split_ifs with hb1 hb2
    · exact h0
    · rw [h0, h1]; ring
    · exact hrec
  | [], fp, hne, _, _ => absurd rfl hne
  | [x0], [], _, hlen, _ => by simp at hlen
  | [x0], y0 :: y1 :: ys, _, hlen, _ => by simp at hlen
  | x0 :: x1 :: xs, [], _, hlen, _ => by simp at hlen
  | x0 :: x1 :: xs, [y0], _, hlen, _ => by simp at hlen

/-- Helper: every index produced by `argsort` is a valid position. -/
theorem argsort_mem_lt (keys : List ℚ) : ∀ i ∈ argsort keys, i < keys.length := by
  intro i hi
  unfold argsort at hi
  have := (List.perm_insertionSort
    (fun i j => keys.getD i 0 ≤ keys.getD j 0) (List.range keys.length)).mem_iff.mp hi
  simpa using this

/-- Helper: pointwise product against a constant list of matching length. -/
theorem zipWith_mul_const_right (r0 : ℚ) :
    ∀ (a b : List ℚ), a.length = b.length →
      List.zipWith (fun u v => u * v) a (b.map (fun _ => r0)) = a.map (fun u => r0 * u)
  | [], [], _ => by simp
  | u :: a, v :: b, hlen => by
    simp only [List.map_cons, List.zipWith_cons_cons]
    rw [zipWith_mul_const_right r0 a b (by simpa using hlen)]
    congr 1
    ring
  | [], _ :: _, hlen => by simp at hlen
  | _ :: _, [], hlen => by simp at hlen

/-! ## Claim C5: a constant filter measures the quadrature-mean flux -/

/-- C5: when every tabulated response value of the filter equals one positive
constant, `get_abs_mag` returns exactly `-2.5·log10` of the flux-weighted
quadrature mean of the model flux density over the integration interval
divided by the AB zero-point flux density of 3631 jansky. -/
theorem constant_filter_mean_flux (model filt : List (ℚ × ℚ)) (r0 : ℚ)
    (hne : filt ≠ []) (hconst : ∀ p ∈ filt, p.2 = r0) (hr0 : 0 < r0) :
    get_abs_mag model filt =
      -2.5 * Real.logb 10 ((quadMeanFlux model / (3631 / 10 ^ 23) : ℚ) : ℝ) := by
  have hresamp : resampledResp model filt =
      ((load_model model false).1).map (fun _ => r0) := by
    unfold resampledResp
    refine List.map_congr_left ?_
    intro x _
    refine interp1_const x r0 _ _ ?_ ?_ ?_
    · show (filt.map (fun r => r.1)).map (fun l => cAng / l) ≠ []
      simp [hne]
    · show ((filt.map (fun r => r.1)).map (fun l => cAng / l)).length =
        (filt.map (fun r => r.2)).length
      simp
    · intro v hv
      show v = r0
      rcases List.mem_map.mp hv with ⟨p, hp, hpv⟩
      rw [← hpv]
      exact hconst p hp
  have hresp : sortedResp model filt =
      (argsort (load_model model false).1).map (fun _ => r0) := by
    unfold sortedResp takeIdx
    rw [hresamp]
    refine List.map_congr_left ?_
    intro i hi
    have hlt : i < ((load_model model false).1).length :=
      argsort_mem_lt _ i hi
    rw [List.getD_eq_getElem _ _ (by simpa using hlt)]
    simp
  have hresp2 : sortedResp model filt =
      ((sortedNu model).map (fun _ => (1 : ℚ))).map (fun v => r0 * v) := by
    rw [hresp]
    unfold sortedNu takeIdx
    rw [List.map_map, List.map_map]
    refine List.map_congr_left ?_
    intro i _
    simp [Function.comp]
  have hprod : sortedProd model filt =
      (takeIdx (argsort (load_model model false).1) (load_model model false).2).map
        (fun v => r0 * v) := by
    unfold sortedProd
    rw [hresamp, zipWith_mul_const_right r0 _ _ (by simp [load_model]), takeIdx_map_mul]
  have hfnu1 : fnu1 model filt =
      r0 * simps (takeIdx (argsort (load_model model false).1) (load_model model false).2)
        (sortedNu model) := by
    unfold fnu1
    rw [hprod, simps_map_mul]
  have hfnu2 : fnu2 model filt =
      r0 * simps ((sortedNu model).map (fun _ => (1 : ℚ))) (sortedNu model) *
        (3631 / 10 ^ 23) := by
    unfold fnu2
    rw [hresp2, simps_map_mul]
  have habR : abRatio model filt = quadMeanFlux model / (3631 / 10 ^ 23) := by
    unfold abRatio quadMeanFlux
    rw [hfnu1, hfnu2, mul_assoc, mul_div_mul_left _ _ (ne_of_gt hr0), div_div]
  unfold get_abs_mag
  rw [habR]

/-- Witness for C5: a three-row model and a two-row filter of constant
response one half. -/
theorem constant_filter_mean_flux_witness :
    get_abs_mag [(1, 1), (2, 3), (4, 2)] [(40000, 1/2), (5000, 1/2)] =
      -2.5 * Real.logb 10
        ((quadMeanFlux [(1, 1), (2, 3), (4, 2)] / (3631 / 10 ^ 23) : ℚ) : ℝ) :=
  constant_filter_mean_flux [(1, 1), (2, 3), (4, 2)] [(40000, 1/2), (5000, 1/2)] (1/2)
    (by simp)
    (by intro p hp; rcases List.mem_cons.mp hp with h | h
        · rw [h]
        · rw [List.mem_singleton.mp h])
    (by norm_num)

/-- Helper: in a strictly increasing list the head bounds every entry. -/
theorem pairwise_head_le_getD (a : ℚ) (l : List ℚ)
    (h : List.Pairwise (fun u v => u < v) (a :: l)) :
    ∀ j, j < (a :: l).length → a ≤ (a :: l).getD j 0 := by
  intro j hj
  cases j with
  | zero => simp
  | succ k =>
    have hk : k < l.length := by simpa using hj
    rw [List.getD_cons_succ, List.getD_eq_getElem _ _ hk]
    exact le_of_lt ((List.pairwise_cons.mp h).1 l[k] (List.getElem_mem hk))

/-- Helper: query points at or left of the first tabulated abscissa get the
first tabulated ordinate. -/
theorem interp1_clamp_left (x : ℚ) :
    ∀ (xp fp : List ℚ), xp ≠ [] → xp.length = fp.length → x ≤ xp.getD 0 0 →
      interp1 x xp fp = fp.getD 0 0
  | [x0], [y0], _, _, _ => by simp [interp1]
  | x0 :: x1 :: xs, y0 :: y1 :: ys, _, _, hx => by
    rw [interp1, if_pos (by simpa using hx)]
    simp
  | [], _, hne, _, _ => absurd rfl hne
  | [x0], [], _, hlen, _ => by simp at hlen
  | [x0], y0 :: y1 :: ys, _, hlen, _ => by simp at hlen
  | x0 :: x1 :: xs, [], _, hlen, _ => by simp at hlen
  | x0 :: x1 :: xs, [y0], _, hlen, _ => by simp at hlen

/-- Helper: on a strictly increasing abscissa grid, query points at or right
of the last tabulated abscissa get the last tabulated ordinate. -/
theorem interp1_clamp_right (x : ℚ) :
    ∀ (xp fp : List ℚ), List.Pairwise (fun u v => u < v) xp → xp ≠ [] →
      xp.length = fp.length → xp.getD (xp.length - 1) 0 ≤ x →
      interp1 x xp fp = fp.getD (fp.length - 1) 0
  | [x0], [y0], _, _, _, _ => by simp [interp1]
  | [x0, x1], [y0, y1], hpw, _, _, hx => by
    have h01 : x0 < x1 := by
      simpa using (List.pairwise_cons.mp hpw).1 x1 (by simp)
    have hx1 : x1 ≤ x := by simpa using hx
    rw [interp1]
    rw [if_neg (by push_neg; exact lt_of_lt_of_le h01 hx1)]
    by_cases hb2 : x ≤ x1
    · rw [if_pos hb2]
      have hxx : x = x1 := le_antisymm hb2 hx1
      subst hxx
      have hne0 : x - x0 ≠ 0 := sub_ne_zero.mpr (ne_of_gt h01)
      show y0 + (y1 - y0) * (x - x0) / (x - x0) = ([y0, y1].getD 1 0)
      rw [mul_div_assoc, div_self hne0]
      simp
    · rw [if_neg hb2]
      simp [interp1]
  | x0 :: x1 :: x2 :: xs, y0 :: y1 :: ys, hpw, _, hlen, hx => by
    have hpwt : List.Pairwise (fun u v => u < v) (x1 :: x2 :: xs) :=
      (List.pairwise_cons.mp hpw).2
    have h01 : x0 < x1 := (List.pairwise_cons.mp hpw).1 x1 (by simp)
    have h12 : x1 < x2 := (List.pairwise_cons.mp hpwt).1 x2 (by simp)
    have hlast : (x1 :: x2 :: xs).getD ((x1 :: x2 :: xs).length - 1) 0 ≤ x := by
      simpa [List.getD_cons_succ] using hx
    have hx2le : x2 ≤ x := by
      have hb := pairwise_head_le_getD x2 xs (List.pairwise_cons.mp hpwt).2
        (xs.length) (by simp)
      have : (x1 :: x2 :: xs).getD ((x1 :: x2 :: xs).length - 1) 0 =
          (x2 :: xs).getD ((x2 :: xs).length - 1) 0 := by
        simp [List.getD_cons_succ]
      rw [this] at hlast
      exact le_trans (by simpa using hb) hlast
    have hrec := interp1_clamp_right x (x1 :: x2 :: xs) (y1 :: ys) hpwt (by simp)
      (by simpa using hlen) hlast
    rw [interp1]
    rw [if_neg (by push_neg; exact lt_of_lt_of_le (lt_trans h01 h12) hx2le)]
    rw [if_neg (by push_neg; exact lt_of_lt_of_le h12 hx2le)]
    rw [hrec]
    cases ys with
    | nil => simp at hlen
    | cons y2 ys2 => simp [List.getD_cons_succ]
  | [], _, _, hne, _, _ => absurd rfl hne
  | [x0], [], _, _, hlen, _ => by simp at hlen
  | [x0], y0 :: y1 :: ys, _, _, hlen, _ => by simp at hlen
  | [x0, x1], [], _, _, hlen, _ => by simp at hlen
  | [x0, x1], [y0], _, _, hlen, _ => by simp at hlen
  | [x0, x1], y0 :: y1 :: y2 :: ys, _, _, hlen, _ => by simp at hlen
  | x0 :: x1 :: x2 :: xs, [], _, _, hlen, _ => by simp at hlen
  | x0 :: x1 :: x2 :: xs, [y0], _, _, hlen, _ => by simp at hlen

/-- Helper: on a strictly increasing abscissa grid, a query point lying in the
`j`-th tabulated segment is interpolated linearly between the `j`-th and
`(j+1)`-th tabulated points. -/
theorem interp1_interior (x : ℚ) :
    ∀ (xp fp : List ℚ) (j : ℕ), List.Pairwise (fun u v => u < v) xp →
      xp.length = fp.length → j + 1 < xp.length →
      xp.getD j 0 ≤ x → x ≤ xp.getD (j + 1) 0 →
      interp1 x xp fp =
        fp.getD j 0 + (fp.getD (j + 1) 0 - fp.getD j 0) * (x - xp.getD j 0) /
          (xp.getD (j + 1) 0 - xp.getD j 0)
  | x0 :: x1 :: xs, y0 :: y1 :: ys, 0, _, _, _, hlow, hhigh => by
    simp only [List.getD_cons_succ, List.getD_cons_zero] at hlow hhigh ⊢
    rw [interp1]
    by_cases hb1 : x ≤ x0
    · rw [if_pos hb1]
      have hxx : x = x0 := le_antisymm hb1 hlow
      subst hxx
      simp
    · rw [if_neg hb1, if_pos hhigh]
  | x0 :: x1 :: xs, y0 :: y1 :: ys, j + 1, hpw, hlen, hj, hlow, hhigh => by
    have hpwt : List.Pairwise (fun u v => u < v) (x1 :: xs) :=
      (List.pairwise_cons.mp hpw).2
    have h01 : x0 < x1 := (List.pairwise_cons.mp hpw).1 x1 (by simp)
    have hjt : j + 1 < (x1 :: xs).length := by simpa using hj
    have hlow' : (x1 :: xs).getD j 0 ≤ x := by simpa using hlow
    have hhigh' : x ≤ (x1 :: xs).getD (j + 1) 0 := by simpa using hhigh
    have hx1le : x1 ≤ (x1 :: xs).getD j 0 :=
      pairwise_head_le_getD x1 xs hpwt j (by omega)
    have hnb1 : ¬ x ≤ x0 := by
      push_neg
      exact lt_of_lt_of_le h01 (le_trans hx1le hlow')
    rw [interp1, if_neg hnb1]
    by_cases hb2 : x ≤ x1
    · have hxx1 : x = x1 := le_antisymm hb2 (le_trans hx1le hlow')
      have hgd : (x1 :: xs).getD j 0 = x1 :=
        le_antisymm (hxx1 ▸ hlow') hx1le
      cases j with
      | zero =>
        rw [if_pos hb2]
        subst hxx1
        have hne01 : x - x0 ≠ 0 := sub_ne_zero.mpr (ne_of_gt h01)
        simp only [List.getD_cons_succ, List.getD_cons_zero]
        rw [mul_div_assoc, div_self hne01]
        ring
      | succ k =>
        exfalso
        have hkx : k < xs.length := by
          simp only [List.length_cons] at hjt
          omega
        have hx1lt : x1 < (x1 :: xs).getD (k + 1) 0 := by
          rw [List.getD_cons_succ, List.getD_eq_getElem _ _ hkx]
          exact (List.pairwise_cons.mp hpwt).1 xs[k] (List.getElem_mem hkx)
        rw [hgd] at hx1lt
        exact lt_irrefl x1 hx1lt
    · rw [if_neg hb2]
      have hrec := interp1_interior x (x1 :: xs) (y1 :: ys) j hpwt
        (by simpa using hlen) hjt hlow' hhigh'
      rw [hrec]
      simp only [List.getD_cons_succ]
  | [], fp, j, _, _, hj, _, _ => by simp at hj
  | [x0], fp, j, _, _, hj, _, _ => by simp at hj
  | x0 :: x1 :: xs, [], j, _, hlen, _, _, _ => by simp at hlen
  | x0 :: x1 :: xs, [y0], j, _, hlen, _, _, _ => by simp at hlen

/-! ## Claim C2: resampling is edge-clamped piecewise-linear interpolation -/

/-- C2: with the filter's frequency grid strictly ascending, the response
resampled onto the model frequency grid is obtained by evaluating, at each
model frequency, the one-dimensional linear interpolant of the filter's
tabulated points: below the filter's first tabulated frequency it equals the
first tabulated response, above the last tabulated frequency it equals the
last tabulated response (edge clamping, neither zero nor extrapolated), and
inside segment `j` it is the linear interpolation between tabulated points
`j` and `j+1`. -/
theorem resampling_linear_clamped (model filt : List (ℚ × ℚ))
    (hasc : List.Pairwise (fun u v => u < v) (load_filter filt false).1)
    (hne : filt ≠ []) :
    (∀ i, i < ((load_model model false).1).length →
      (resampledResp model filt).getD i 0 =
        interp1 (((load_model model false).1).getD i 0)
          (load_filter filt false).1 (load_filter filt false).2) ∧
    (∀ x : ℚ, x ≤ ((load_filter filt false).1).getD 0 0 →
      interp1 x (load_filter filt false).1 (load_filter filt false).2 =
        ((load_filter filt false).2).getD 0 0) ∧
    (∀ x : ℚ,
      ((load_filter filt false).1).getD (((load_filter filt false).1).length - 1) 0 ≤ x →
      interp1 x (load_filter filt false).1 (load_filter filt false).2 =
        ((load_filter filt false).2).getD (((load_filter filt false).2).length - 1) 0) ∧
    (∀ (x : ℚ) (j : ℕ), j + 1 < ((load_filter filt false).1).length →
      ((load_filter filt false).1).getD j 0 ≤ x →
      x ≤ ((load_filter filt false).1).getD (j + 1) 0 →
      interp1 x (load_filter filt false).1 (load_filter filt false).2 =
        ((load_filter filt false).2).getD j 0 +
          (((load_filter filt false).2).getD (j + 1) 0 -
            ((load_filter filt false).2).getD j 0) *
            (x - ((load_filter filt false).1).getD j 0) /
            (((load_filter filt false).1).getD (j + 1) 0 -
              ((load_filter filt false).1).getD j 0)) := by
  have hlen : ((load_filter filt false).1).length = ((load_filter filt false).2).length := by
    simp [load_filter]
  have hnex : (load_filter filt false).1 ≠ [] := by
    simp [load_filter, hne]
  refine ⟨?_, ?_, ?_, ?_⟩
  · intro i hi
    unfold resampledResp
    rw [List.getD_eq_getElem _ _ (by simpa using hi), List.getElem_map,
      List.getD_eq_getElem _ _ hi]
  · intro x hx
    exact interp1_clamp_left x _ _ hnex hlen hx
  · intro x hx
    exact interp1_clamp_right x _ _ hasc hnex hlen hx
  · intro x j hj hlow hhigh
    exact interp1_interior x _ _ j hasc hlen hj hlow hhigh

/-- Witness for C2 at a concrete two-row filter tabulated with descending
wavelengths, i.e. a strictly ascending frequency grid. -/
theorem resampling_linear_clamped_witness :
    (∀ i, i < ((load_model [((1 : ℚ), (1 : ℚ))] false).1).length →
      (resampledResp [((1 : ℚ), (1 : ℚ))] [((40000 : ℚ), (1 : ℚ)/4), (5000, 1/2)]).getD i 0 =
        interp1 (((load_model [((1 : ℚ), (1 : ℚ))] false).1).getD i 0)
          (load_filter [((40000 : ℚ), (1 : ℚ)/4), (5000, 1/2)] false).1
          (load_filter [((40000 : ℚ), (1 : ℚ)/4), (5000, 1/2)] false).2) ∧
    (∀ x : ℚ,
      x ≤ ((load_filter [((40000 : ℚ), (1 : ℚ)/4), (5000, 1/2)] false).1).getD 0 0 →
      interp1 x (load_filter [((40000 : ℚ), (1 : ℚ)/4), (5000, 1/2)] false).1
          (load_filter [((40000 : ℚ), (1 : ℚ)/4), (5000, 1/2)] false).2 =
        ((load_filter [((40000 : ℚ), (1 : ℚ)/4), (5000, 1/2)] false).2).getD 0 0) ∧
    (∀ x : ℚ,
      ((load_filter [((40000 : ℚ), (1 : ℚ)/4), (5000, 1/2)] false).1).getD
          (((load_filter [((40000 : ℚ), (1 : ℚ)/4), (5000, 1/2)] false).1).length - 1) 0 ≤ x →
      interp1 x (load_filter [((40000 : ℚ), (1 : ℚ)/4), (5000, 1/2)] false).1
          (load_filter [((40000 : ℚ), (1 : ℚ)/4), (5000, 1/2)] false).2 =
        ((load_filter [((40000 : ℚ), (1 : ℚ)/4), (5000, 1/2)] false).2).getD
          (((load_filter [((40000 : ℚ), (1 : ℚ)/4), (5000, 1/2)] false).2).length - 1) 0) ∧
    (∀ (x : ℚ) (j : ℕ),
      j + 1 < ((load_filter [((40000 : ℚ), (1 : ℚ)/4), (5000, 1/2)] false).1).length →
      ((load_filter [((40000 : ℚ), (1 : ℚ)/4), (5000, 1/2)] false).1).getD j 0 ≤ x →
      x ≤ ((load_filter [((40000 : ℚ), (1 : ℚ)/4), (5000, 1/2)] false).1).getD (j + 1) 0 →
      interp1 x (load_filter [((40000 : ℚ), (1 : ℚ)/4), (5000, 1/2)] false).1
          (load_filter [((40000 : ℚ), (1 : ℚ)/4), (5000, 1/2)] false).2 =
        ((load_filter [((40000 : ℚ), (1 : ℚ)/4), (5000, 1/2)] false).2).getD j 0 +
          (((load_filter [((40000 : ℚ), (1 : ℚ)/4), (5000, 1/2)] false).2).getD (j + 1) 0 -
            ((load_filter [((40000 : ℚ), (1 : ℚ)/4), (5000, 1/2)] false).2).getD j 0) *
            (x - ((load_filter [((40000 : ℚ), (1 : ℚ)/4), (5000, 1/2)] false).1).getD j 0) /
            (((load_filter [((40000 : ℚ), (1 : ℚ)/4), (5000, 1/2)] false).1).getD (j + 1) 0 -
              ((load_filter [((40000 : ℚ), (1 : ℚ)/4), (5000, 1/2)] false).1).getD j 0)) :=
  resampling_linear_clamped [((1 : ℚ), (1 : ℚ))] [((40000 : ℚ), (1 : ℚ)/4), (5000, 1/2)]
    (by norm_num [load_filter, cAng, List.pairwise_cons])
    (by simp)

/-- Helper: dropping two leading elements shifts `getD` indices by two. -/
theorem getD_cons_cons (a b : ℚ) (l : List ℚ) (n : ℕ) :
    (a :: b :: l).getD (n + 2) 0 = l.getD n 0 := rfl

/-- Helper: `argsort` has as many indices as there are keys. -/
theorem argsort_length (keys : List ℚ) : (argsort keys).length = keys.length := by
  unfold argsort
  rw [List.length_insertionSort, List.length_range]

/-- Helper: fancy indexing produces one entry per index. -/
theorem takeIdx_length (idx : List ℕ) (v : List ℚ) : (takeIdx idx v).length = idx.length :=
  List.length_map idx _

/-- Helper: the composite Simpson sum over a grid extended by two leading
points equals the sum over the rest plus the leading two-interval term. -/
theorem compSimpson_cons_cons (x0 x1 y0 y1 : ℚ) (xr yr : List ℚ) :
    compSimpson (x0 :: x1 :: xr) (y0 :: y1 :: yr) =
      compSimpson xr yr +
        (xr.getD 0 0 - x0) / 6 *
          (y0 * (2 - (xr.getD 0 0 - x1) / (x1 - x0)) +
            y1 * ((xr.getD 0 0 - x0) ^ 2 / ((x1 - x0) * (xr.getD 0 0 - x1))) +
            yr.getD 0 0 * (2 - (x1 - x0) / (xr.getD 0 0 - x1))) := by
  unfold compSimpson
  rw [show (x0 :: x1 :: xr).length / 2 = xr.length / 2 + 1 by
    simp only [List.length_cons]; omega]
  rw [Finset.sum_range_succ']
  congr 1

/-- Helper: on grids with an odd number of samples (an even number of
intervals) scipy's `_basic_simps` coincides with the closed-form composite
Simpson sum. -/
theorem basicSimps_eq_compSimpson :
    ∀ (x y : List ℚ), x.length = y.length → x.length % 2 = 1 →
      basicSimps x y = compSimpson x y
  | [x0], [y0], _, _ => by
    show (0 : ℚ) = compSimpson [x0] [y0]
    simp [compSimpson]
  | x0 :: x1 :: x2 :: xs, y0 :: y1 :: y2 :: ys, hlen, hodd => by
    have hIH := basicSimps_eq_compSimpson (x2 :: xs) (y2 :: ys)
      (by simpa using hlen)
      (by simp only [List.length_cons] at hodd ⊢; omega)
    show simpsPair x0 x1 x2 y0 y1 y2 + basicSimps (x2 :: xs) (y2 :: ys) = _
    rw [hIH, compSimpson_cons_cons, add_comm (simpsPair x0 x1 x2 y0 y1 y2)]
    congr 1
    simp only [List.getD_cons_zero, simpsPair]
    ring
  | [], y, _, hodd => by simp at hodd
  | [x0, x1], y, _, hodd => by simp at hodd
  | [x0], [], hlen, _ => by simp at hlen
  | [x0], y0 :: y1 :: ys, hlen, _ => by simp at hlen
  | x0 :: x1 :: x2 :: xs, [], hlen, _ => by simp at hlen
  | x0 :: x1 :: x2 :: xs, [y0], hlen, _ => by simp at hlen
  | x0 :: x1 :: x2 :: xs, [y0, y1], hlen, _ => by simp at hlen

/-! ## Claim C1: the magnitude is a ratio of composite Simpson integrals -/

/-- C1: for a model file with an odd number of samples (so that scipy's
`simps` needs no even-interval correction), `get_abs_mag` returns exactly
`-2.5·log10` of the composite-Simpson integral of (flux density × resampled
response) over the ascending model frequency grid, divided by the
composite-Simpson integral of the resampled response scaled by the AB
zero-point flux density of 3631 jansky. -/
theorem abs_mag_is_simpson_ratio (model filt : List (ℚ × ℚ))
    (hodd : model.length % 2 = 1) :
    get_abs_mag model filt =
      -2.5 * Real.logb 10
        ((compSimpson (sortedNu model) (sortedProd model filt) /
          (compSimpson (sortedNu model) (sortedResp model filt) * (3631 / 10 ^ 23)) : ℚ) : ℝ) := by
  have hn : ((load_model model false).1).length = model.length := by
    simp [load_model]
  have hlnu : (sortedNu model).length = model.length := by
    unfold sortedNu
    rw [takeIdx_length, argsort_length, hn]
  have hlp : (sortedProd model filt).length = model.length := by
    unfold sortedProd
    rw [takeIdx_length, argsort_length, hn]
  have hlr : (sortedResp model filt).length = model.length := by
    unfold sortedResp
    rw [takeIdx_length, argsort_length, hn]
  have h1 : fnu1 model filt = compSimpson (sortedNu model) (sortedProd model filt) := by
    unfold fnu1 simps
    rw [if_pos (by rw [hlp]; exact hodd)]
    exact basicSimps_eq_compSimpson _ _ (by rw [hlnu, hlp]) (by rw [hlnu]; exact hodd)
  have h2 : fnu2 model filt =
      compSimpson (sortedNu model) (sortedResp model filt) * (3631 / 10 ^ 23) := by
    unfold fnu2 simps
    rw [if_pos (by rw [hlr]; exact hodd)]
    rw [basicSimps_eq_compSimpson _ _ (by rw [hlnu, hlr]) (by rw [hlnu]; exact hodd)]
  unfold get_abs_mag abRatio
  rw [h1, h2]

/-- Witness for C1 at a three-sample model. -/
theorem abs_mag_is_simpson_ratio_witness :
    get_abs_mag [(1, 1), (2, 3), (4, 2)] [(40000, 1/4), (5000, 1/2)] =
      -2.5 * Real.logb 10
        ((compSimpson (sortedNu [(1, 1), (2, 3), (4, 2)])
            (sortedProd [(1, 1), (2, 3), (4, 2)] [(40000, 1/4), (5000, 1/2)]) /
          (compSimpson (sortedNu [(1, 1), (2, 3), (4, 2)])
            (sortedResp [(1, 1), (2, 3), (4, 2)] [(40000, 1/4), (5000, 1/2)]) *
            (3631 / 10 ^ 23)) : ℚ) : ℝ) :=
  abs_mag_is_simpson_ratio [(1, 1), (2, 3), (4, 2)] [(40000, 1/4), (5000, 1/2)]
    (by norm_num)

/-- Helper: binding a failed `Except` computation short-circuits. -/
theorem except_bind_error {α β : Type} (e : String) (f : α → Except String β) :
    (Except.error e : Except String α) >>= f = Except.error e := rfl

/-- Helper: binding a successful `Except` computation continues. -/
theorem except_bind_ok {α β : Type} (a : α) (f : α → Except String β) :
    (Except.ok a : Except String α) >>= f = f a := rfl

/-- Helper: the filter-row parser rejects a row list exactly when some row
does not have two fields. -/
theorem parseFilterRows_error_iff :
    ∀ rows : List (List ℚ),
      (∃ e, parseFilterRows rows = .error e) ↔ ∃ row ∈ rows, row.length ≠ 2
  | [] => by simp [parseFilterRows]
  | [a, b] :: rest => by
    have hIH := parseFilterRows_error_iff rest
    cases h : parseFilterRows rest with
    | error e => simp [parseFilterRows, h, Except.map]; simpa [h] using hIH
    | ok v => simp [parseFilterRows, h, Except.map]; simpa [h] using hIH
  | [] :: rest => by simp [parseFilterRows]
  | [a] :: rest => by simp [parseFilterRows]
  | (a :: b :: c :: t) :: rest => by
    refine ⟨fun _ => ⟨a :: b :: c :: t, by simp, by simp⟩, fun _ => ?_⟩
    exact ⟨"ParseError: row does not have exactly two columns", rfl⟩

/-! ## Claim C9: errors propagate, computations are all-or-nothing -/

/-- C9: `get_abs_magE` succeeds exactly when both loads succeed, in which case
its value is the magnitude of the loaded data; it fails exactly with the model
loader's error, or with the filter loader's error when the model load
succeeded — no error is caught, and there is no partial result.  Moreover the
model loader rejects a present file exactly when an expected column is
missing, and the filter loader rejects a present file exactly when some row
does not have two fields. -/
theorem error_propagation (mf : Option (List (String × List ℚ)))
    (ff : Option (List (List ℚ))) :
    (∀ r : ℝ, get_abs_magE mf ff = .ok r ↔
      ∃ m fl, load_modelE mf = .ok m ∧ load_filterE ff = .ok fl ∧
        r = get_abs_mag m fl) ∧
    (∀ e : String, get_abs_magE mf ff = .error e ↔
      (load_modelE mf = .error e ∨
        ((∃ m, load_modelE mf = .ok m) ∧ load_filterE ff = .error e))) ∧
    (∀ tbl, (∃ e, load_modelE (some tbl) = .error e) ↔
      (tbl.find? (fun col => col.1 == "LAMBDA(mic)") = none ∨
        tbl.find? (fun col => col.1 == "FDET(milliJ)") = none)) ∧
    (∀ rows : List (List ℚ),
      (∃ e, load_filterE (some rows) = .error e) ↔ ∃ row ∈ rows, row.length ≠ 2) := by
  refine ⟨?_, ?_, ?_, ?_⟩
  · intro r
    cases hm : load_modelE mf with
    | error e0 => simp [get_abs_magE, hm, except_bind_error]
    | ok m =>
      cases hf : load_filterE ff with
      | error f0 => simp [get_abs_magE, hm, hf, except_bind_error, except_bind_ok]
      | ok fl =>
        simp only [get_abs_magE, hm, hf, except_bind_ok, Except.map_ok,
          pure, Except.pure, Except.ok.injEq]
        constructor
        · intro hr
          exact ⟨m, fl, rfl, rfl, hr.symm⟩
        · rintro ⟨m2, fl2, hm2, hf2, hr2⟩
          cases hm2
          cases hf2
          exact hr2.symm
  · intro e
    cases hm : load_modelE mf with
    | error e0 => simp [get_abs_magE, hm, except_bind_error, eq_comm]
    | ok m =>
      cases hf : load_filterE ff with
      | error f0 => simp [get_abs_magE, hm, hf, except_bind_error, except_bind_ok, eq_comm]
      | ok fl => simp [get_abs_magE, hm, hf, except_bind_ok]
  · intro tbl
    cases hl : tbl.find? (fun col => col.1 == "LAMBDA(mic)") with
    | none => simp [load_modelE, asciiReadCol, hl, except_bind_error]
    | some cl =>
      cases hf : tbl.find? (fun col => col.1 == "FDET(milliJ)") with
      | none => simp [load_modelE, asciiReadCol, hl, hf, except_bind_error, except_bind_ok]
      | some cf => simp [load_modelE, asciiReadCol, hl, hf, except_bind_ok]
  · intro rows
    simpa [load_filterE] using parseFilterRows_error_iff rows

/-- Helper: zipping reversed lists of equal length reverses the zip. -/
theorem zip_reverse_of_length :
    ∀ (a b : List ℚ), a.length = b.length →
      a.reverse.zip b.reverse = (a.zip b).reverse
  | [], [], _ => rfl
  | x :: xs, y :: ys, hlen => by
    simp only [List.reverse_cons]
    rw [List.zip_append (by simp [by simpa using hlen] : (xs.reverse).length = (ys.reverse).length),
      zip_reverse_of_length xs ys (by simpa using hlen)]
    simp
  | [], _ :: _, h => by simp at h
  | _ :: _, [], h => by simp at h

/-- Helper: pointwise products of reversed lists of equal length. -/
theorem zipWith_mul_reverse :
    ∀ (a b : List ℚ), a.length = b.length →
      List.zipWith (fun u v => u * v) a.reverse b.reverse =
        (List.zipWith (fun u v => u * v) a b).reverse
  | [], [], _ => rfl
  | x :: xs, y :: ys, hlen => by
    simp only [List.reverse_cons]
    rw [List.zipWith_append _ _ _ _ _
        (by simp [by simpa using hlen] : (xs.reverse).length = (ys.reverse).length),
      zipWith_mul_reverse xs ys (by simpa using hlen)]
    simp
  | [], _ :: _, h => by simp at h
  | _ :: _, [], h => by simp at h

/-- Helper: reading equal-length lists out positionally over the index range
reconstructs their zip. -/
theorem range_map_getD_zip :
    ∀ (keys vals : List ℚ), keys.length = vals.length →
      (List.range keys.length).map (fun i => (keys.getD i 0, vals.getD i 0)) =
        keys.zip vals
  | [], [], _ => rfl
  | k :: ks, v :: vs, hlen => by
    rw [List.length_cons, List.range_succ_eq_map, List.map_cons, List.map_map]
    have hcomp :
        ((fun i => ((k :: ks).getD i 0, (v :: vs).getD i 0)) ∘ (fun i => i + 1)) =
          fun i => (ks.getD i 0, vs.getD i 0) := by
      funext i
      simp [Function.comp]
    rw [hcomp, range_map_getD_zip ks vs (by simpa using hlen)]
    simp
  | [], _ :: _, h => by simp at h
  | _ :: _, [], h => by simp at h

/-- Helper: the key-sorted pair sequence read off through `argsort` is a
permutation of the zipped input. -/
theorem argsort_pairs_perm (ks vs : List ℚ) (h : ks.length = vs.length) :
    ((argsort ks).map (fun i => (ks.getD i 0, vs.getD i 0))).Perm (ks.zip vs) := by
  have h1 : (argsort ks).Perm (List.range ks.length) := List.perm_insertionSort _ _
  have h2 := h1.map (fun i => (ks.getD i 0, vs.getD i 0))
  rw [range_map_getD_zip ks vs h] at h2
  exact h2

/-- Helper: the key-sorted pair sequence has ascending keys. -/
theorem argsort_pairs_sorted (ks vs : List ℚ) :
    List.Pairwise (fun p q : ℚ × ℚ => p.1 ≤ q.1)
      ((argsort ks).map (fun i => (ks.getD i 0, vs.getD i 0))) := by
  haveI : IsTotal ℕ (fun i j : ℕ => ks.getD i 0 ≤ ks.getD j 0) :=
    ⟨fun a b => le_total _ _⟩
  haveI : IsTrans ℕ (fun i j : ℕ => ks.getD i 0 ≤ ks.getD j 0) :=
    ⟨fun a b c hab hbc => le_trans hab hbc⟩
  have hs : List.Sorted (fun i j : ℕ => ks.getD i 0 ≤ ks.getD j 0) (argsort ks) :=
    List.sorted_insertionSort _ _
  exact List.Pairwise.map _ (fun a b hab => hab) hs

/-- Helper: with pairwise-distinct keys, the key-sorted pair sequence is
uniquely determined by the multiset of (key, value) pairs: any two inputs
whose zips are permutations of each other sort to the same sequence. -/
theorem argsort_pairs_unique (keys vals keys2 vals2 : List ℚ)
    (hnd : keys.Nodup)
    (hlen : keys.length = vals.length) (hlen2 : keys2.length = vals2.length)
    (hperm : (keys.zip vals).Perm (keys2.zip vals2)) :
    (argsort keys).map (fun i => (keys.getD i 0, vals.getD i 0)) =
      (argsort keys2).map (fun i => (keys2.getD i 0, vals2.getD i 0)) := by
  haveI : IsAntisymm (ℚ × ℚ) (fun p q : ℚ × ℚ => p.1 < q.1) :=
    ⟨fun p q hpq hqp => absurd (lt_trans hpq hqp) (lt_irrefl _)⟩
  have hkk : keys.Perm keys2 := by
    have h1 := hperm.map Prod.fst
    rw [List.map_fst_zip keys vals (le_of_eq hlen),
      List.map_fst_zip keys2 vals2 (le_of_eq hlen2)] at h1
    exact h1
  have hnd2 : keys2.Nodup := hkk.nodup_iff.mp hnd
  have hstrict : ∀ (ks vs : List ℚ), ks.length = vs.length → ks.Nodup →
      List.Pairwise (fun p q : ℚ × ℚ => p.1 < q.1)
        ((argsort ks).map (fun i => (ks.getD i 0, vs.getD i 0))) := by
    intro ks vs h hn
    have hle := argsort_pairs_sorted ks vs
    have hperm0 := argsort_pairs_perm ks vs h
    have hfst : (((argsort ks).map (fun i => (ks.getD i 0, vs.getD i 0))).map
        Prod.fst).Nodup := by
      have h1 := hperm0.map Prod.fst
      rw [List.map_fst_zip ks vs (le_of_eq h)] at h1
      exact h1.nodup_iff.mpr hn
    have hne : List.Pairwise (fun p q : ℚ × ℚ => p.1 ≠ q.1)
        ((argsort ks).map (fun i => (ks.getD i 0, vs.getD i 0))) :=
      List.pairwise_map.mp hfst
    exact (hle.and hne).imp (fun h2 => lt_of_le_of_ne h2.1 h2.2)
  refine List.eq_of_perm_of_sorted
    ((argsort_pairs_perm keys vals hlen).trans
      (hperm.trans (argsort_pairs_perm keys2 vals2 hlen2).symm))
    (hstrict keys vals hlen hnd) (hstrict keys2 vals2 hlen2 hnd2)

/-- Helper: component form of `argsort_pairs_unique`: both the rearranged key
array and the rearranged value array agree. -/
theorem takeIdx_argsort_eq (keys vals keys2 vals2 : List ℚ)
    (hnd : keys.Nodup)
    (hlen : keys.length = vals.length) (hlen2 : keys2.length = vals2.length)
    (hperm : (keys.zip vals).Perm (keys2.zip vals2)) :
    takeIdx (argsort keys) keys = takeIdx (argsort keys2) keys2 ∧
      takeIdx (argsort keys) vals = takeIdx (argsort keys2) vals2 := by
  have h := argsort_pairs_unique keys vals keys2 vals2 hnd hlen hlen2 hperm
  constructor
  · have h1 := congrArg (List.map Prod.fst) h
    rw [List.map_map, List.map_map] at h1
    simpa [takeIdx, Function.comp] using h1
  · have h2 := congrArg (List.map Prod.snd) h
    rw [List.map_map, List.map_map] at h2
    simpa [takeIdx, Function.comp] using h2

/-! ## Claim C3: row order does not matter (sort-before-integrate) -/

/-- C3: `get_abs_mag` rearranges the frequency grid and both integrand arrays
by the same ascending-frequency argsort before integrating, so feeding the
same samples in reversed (e.g. descending-frequency) row order yields exactly
the same magnitude, provided the frequency values are pairwise distinct (with
tied frequencies numpy's unstable quicksort leaves the tie order
unspecified). -/
theorem descending_order_invariance (model filt : List (ℚ × ℚ))
    (hnd : ((load_model model false).1).Nodup) :
    get_abs_mag model.reverse filt = get_abs_mag model filt := by
  have hkeysR : (load_model model.reverse false).1 =
      ((load_model model false).1).reverse := by
    simp [load_model]
  have hfnuR : (load_model model.reverse false).2 =
      ((load_model model false).2).reverse := by
    simp [load_model]
  have hrespR : resampledResp model.reverse filt = (resampledResp model filt).reverse := by
    unfold resampledResp
    rw [hkeysR]
    simp
  have hlk : ((load_model model false).1).length = model.length := by simp [load_model]
  have hlf : ((load_model model false).2).length = model.length := by simp [load_model]
  have hlr : (resampledResp model filt).length = model.length := by
    unfold resampledResp
    simp [load_model]
  have hlfr : ((load_model model false).2).length = (resampledResp model filt).length := by
    rw [hlf, hlr]
  have hlenp : ((load_model model false).1).length =
      (List.zipWith (fun u v => u * v) (load_model model false).2
        (resampledResp model filt)).length := by
    rw [List.length_zipWith, hlk, hlf, hlr, min_self]
  have hlenr : ((load_model model false).1).length = (resampledResp model filt).length := by
    rw [hlk, hlr]
  have hpermP : (((load_model model false).1).zip
        (List.zipWith (fun u v => u * v) (load_model model false).2
          (resampledResp model filt))).Perm
      ((((load_model model false).1).reverse).zip
        ((List.zipWith (fun u v => u * v) (load_model model false).2
          (resampledResp model filt)).reverse)) := by
    rw [zip_reverse_of_length _ _ hlenp]
    exact (List.reverse_perm _).symm
  have hpermR : (((load_model model false).1).zip (resampledResp model filt)).Perm
      ((((load_model model false).1).reverse).zip
        ((resampledResp model filt).reverse)) := by
    rw [zip_reverse_of_length _ _ hlenr]
    exact (List.reverse_perm _).symm
  have hP := takeIdx_argsort_eq ((load_model model false).1)
    (List.zipWith (fun u v => u * v) (load_model model false).2 (resampledResp model filt))
    (((load_model model false).1).reverse)
    ((List.zipWith (fun u v => u * v) (load_model model false).2
      (resampledResp model filt)).reverse)
    hnd hlenp (by simpa using hlenp) hpermP
  have hR := takeIdx_argsort_eq ((load_model model false).1) (resampledResp model filt)
    (((load_model model false).1).reverse) ((resampledResp model filt).reverse)
    hnd hlenr (by simpa using hlenr) hpermR
  have hsnu : sortedNu model.reverse = sortedNu model := by
    unfold sortedNu
    rw [hkeysR]
    exact hP.1.symm
  have hsprod : sortedProd model.reverse filt = sortedProd model filt := by
    unfold sortedProd
    rw [hkeysR, hfnuR, hrespR, zipWith_mul_reverse _ _ hlfr]
    exact hP.2.symm
  have hsresp : sortedResp model.reverse filt = sortedResp model filt := by
    unfold sortedResp
    rw [hkeysR, hrespR]
    exact hR.2.symm
  unfold get_abs_mag abRatio fnu1 fnu2
  rw [hsnu, hsprod, hsresp]

/-- Witness for C3 at a concrete three-row model whose frequency values are
pairwise distinct. -/
theorem descending_order_invariance_witness :
    get_abs_mag ([((1 : ℚ), (1 : ℚ)), (2, 3), (4, 2)].reverse) [(40000, 1/4), (5000, 1/2)] =
      get_abs_mag [(1, 1), (2, 3), (4, 2)] [(40000, 1/4), (5000, 1/2)] :=
  descending_order_invariance [(1, 1), (2, 3), (4, 2)] [(40000, 1/4), (5000, 1/2)]
    (by norm_num [load_model, cAng, List.nodup_cons])

end HSCBD
